import Mathlib

/-!
Verification of the resampling-based model evaluation harness (ResamplingEvaluator) and the
k-fold cross-validation driver (KFoldValidator) described by the specification of the
model-validation notebook repository.  The repository itself contains only a notebook that
drives pandas and scikit-learn; the two reusable components the specification describes are
therefore modelled from the specification text, with the numeric model capability
(regression fitting, scoring, prediction) kept abstract, exactly as the specification
declares it an external collaborator.
-/

namespace ModelValidation

/-- Modelled from the spec: one dataset row, a fixed set of numeric feature columns plus one
numeric target column (the price column of the notebook dataset). -/
structure Row where
  features : List ℚ
  target : ℚ
  deriving Repr, DecidableEq

/-- Modelled from the spec: a Dataset is an ordered collection of rows, owned by the caller
and read-only to both components. -/
abbrev Dataset := List Row

/-- Default row used only to totalize index lookups; validated runs never reach it. -/
def defaultRow : Row := ⟨[], 0⟩

/-- Modelled from the spec: the external trainable-model capability, supplied as a factory so
each repetition or fold gets an independently initialized instance.  The field freshModel is
the zero-argument modelFactory result: a fresh, unfit model.  All calls are fallible; a
failure message models ModelFailure causes.  The rmse field is the second in-sample metric
recorded by the notebook (root mean squared error), treated like score as an abstract scalar
metric of the external capability since its square root lives in external numerics. -/
structure ModelCap (M : Type) where
  freshModel : M
  fit : M → List (List ℚ) → List ℚ → Except String M
  predict : M → List ℚ → Except String ℚ
  score : M → List (List ℚ) → List ℚ → Except String ℚ
  rmse : M → List (List ℚ) → List ℚ → Except String ℚ

/-- Modelled from the spec: the error taxonomy of both components. -/
inductive EvalError where
  | invalidSampleSize
  | invalidK
  | emptyDataset
  | modelFailure (msg : String)
  deriving Repr, DecidableEq

/-- Modelled from the spec: a deterministic seeded random source (a 64-bit linear
congruential generator), standing in for the numpy global generator seeded by
np.random.seed in the notebook. -/
def lcgNext (s : ℕ) : ℕ := (6364136223846793005 * s + 1442695040888963407) % (2 ^ 64)

/-- Modelled from the spec: bootstrap sampling — sampleSize independent draws with
replacement, as df.sample(n, replace=True) in the notebook.  Returns the sample together
with the advanced seed. -/
def sampleWithRepl (rows : Dataset) : ℕ → ℕ → Dataset × ℕ
  | 0, s => ([], s)
  | c + 1, s =>
    (rows.getD (lcgNext s % rows.length) defaultRow :: (sampleWithRepl rows c (lcgNext s)).1,
     (sampleWithRepl rows c (lcgNext s)).2)

/-- Modelled from the spec: sampling without replacement by order-preserving selection
sampling over the row sequence: each row is kept with probability need over remaining, so
the drawn sample is a subsequence of the dataset in original row order. -/
def selectSample : Dataset → ℕ → ℕ → Dataset × ℕ
  | [], _, s => ([], s)
  | _ :: _, 0, s => ([], s)
  | r :: rest, n + 1, s =>
    if lcgNext s % (rest.length + 1) < n + 1 then
      (r :: (selectSample rest n (lcgNext s)).1, (selectSample rest n (lcgNext s)).2)
    else
      selectSample rest (n + 1) (lcgNext s)

/-- The sampling draw of one repetition: with or without replacement per the flag. -/
def sampleOf (rows : Dataset) (ss : ℕ) (wr : Bool) (s : ℕ) : Dataset × ℕ :=
  if wr then sampleWithRepl rows ss s else selectSample rows ss s

/-- Seed evolution of one repetition (the sampling draw is the only consumer of
randomness). -/
def seedStep (rows : Dataset) (ss : ℕ) (wr : Bool) (s : ℕ) : ℕ :=
  (sampleOf rows ss wr s).2

/-- Seed state entering repetition i, starting from the run-level seed. -/
def seedAt (rows : Dataset) (ss : ℕ) (wr : Bool) : ℕ → ℕ → ℕ
  | 0, s => s
  | i + 1, s => seedAt rows ss wr i (seedStep rows ss wr s)

/-- Modelled from the spec: one EvaluationRecord — the in-sample score, the in-sample RMSE,
and the prediction of the model at the fixed query point, for one repetition. -/
structure EvaluationRecord where
  score : ℚ
  rmse : ℚ
  pred : ℚ
  deriving Repr, DecidableEq

/-- Default record used only to totalize index lookups in statements. -/
def defaultRecord : EvaluationRecord := ⟨0, 0, 0⟩

/-- Modelled from the spec: fit a fresh model from the factory on the given sample, record
the in-sample score, the in-sample RMSE, and the prediction at the query point. -/
def recOf {M : Type} (cap : ModelCap M) (sample : Dataset) (qp : List ℚ) :
    Except String EvaluationRecord :=
  match cap.fit cap.freshModel (sample.map Row.features) (sample.map Row.target) with
  | .error e => .error e
  | .ok m =>
    match cap.score m (sample.map Row.features) (sample.map Row.target) with
    | .error e => .error e
    | .ok sc =>
      match cap.rmse m (sample.map Row.features) (sample.map Row.target) with
      | .error e => .error e
      | .ok rm =>
        match cap.predict m qp with
        | .error e => .error e
        | .ok p => .ok ⟨sc, rm, p⟩

/-- One repetition of the resampling evaluation: draw the sample, then fit and record. -/
def singleRep {M : Type} (cap : ModelCap M) (rows : Dataset) (ss : ℕ) (wr : Bool)
    (qp : List ℚ) (s : ℕ) : Except String (EvaluationRecord × ℕ) :=
  match recOf cap (sampleOf rows ss wr s).1 qp with
  | .error e => .error e
  | .ok r => .ok (r, (sampleOf rows ss wr s).2)

/-- The repetition loop: runs the given number of repetitions sequentially, threading the
seed, aborting on the first model failure. -/
def runReps {M : Type} (cap : ModelCap M) (rows : Dataset) (ss : ℕ) (wr : Bool)
    (qp : List ℚ) : ℕ → ℕ → Except String (List EvaluationRecord × ℕ)
  | 0, s => .ok ([], s)
  | r + 1, s =>
    match singleRep cap rows ss wr qp s with
    | .error e => .error e
    | .ok p =>
      match runReps cap rows ss wr qp r p.2 with
      | .error e => .error e
      | .ok q => .ok (p.1 :: q.1, q.2)

/-- Arithmetic mean of a list of rationals (population convention, 0 on the empty list). -/
def mean (xs : List ℚ) : ℚ := xs.sum / (xs.length : ℚ)

/-- Population variance of a list of rationals, as np.var computes it (ddof = 0). -/
def variance (xs : List ℚ) : ℚ :=
  (xs.map (fun x => (x - mean xs) ^ 2)).sum / (xs.length : ℚ)

/-- Modelled from the spec: the EvaluationSummary — mean and variance of the in-sample
scores, the mean RMSE, and mean and variance of the query-point predictions. -/
structure EvaluationSummary where
  scoreMean : ℚ
  scoreVariance : ℚ
  rmseMean : ℚ
  predMean : ℚ
  predVariance : ℚ
  deriving Repr, DecidableEq

/-- Modelled from the spec: ResamplingEvaluator.evaluate.  Input validation happens before
any repetition runs: an empty dataset fails with EmptyDataset, a zero sample size (or one
exceeding the row count when drawing without replacement) fails with InvalidSampleSize.
Model failures abort the whole run, wrapped as ModelFailure. -/
def evaluate {M : Type} (cap : ModelCap M) (rows : Dataset) (sampleSize reps : ℕ)
    (wr : Bool) (qp : List ℚ) (seed : ℕ) : Except EvalError EvaluationSummary :=
  if rows = [] then .error .emptyDataset
  else if sampleSize = 0 then .error .invalidSampleSize
  else if wr = false ∧ rows.length < sampleSize then .error .invalidSampleSize
  else
    match runReps cap rows sampleSize wr qp reps seed with
    | .error e => .error (.modelFailure e)
    | .ok q =>
      .ok ⟨mean (q.1.map EvaluationRecord.score), variance (q.1.map EvaluationRecord.score),
           mean (q.1.map EvaluationRecord.rmse),
           mean (q.1.map EvaluationRecord.pred), variance (q.1.map EvaluationRecord.pred)⟩

/-- Modelled from the spec: fold sizes of the k-fold partition of n rows — k nearly-equal
groups, the first n mod k groups getting one extra row. -/
def foldSizes (n k : ℕ) : List ℕ :=
  (List.range k).map (fun i => n / k + if i < n % k then 1 else 0)

/-- Cut a sequence into consecutive chunks of the given sizes. -/
def splitChunks {α : Type} : List ℕ → List α → List (List α)
  | [], _ => []
  | c :: cs, xs => xs.take c :: splitChunks cs (xs.drop c)

/-- Modelled from the spec: divide the row index sequence into k nearly-equal contiguous
groups (the partition KFold(n_splits=k) produces with shuffle left False, as in the
notebook). -/
def kfoldSplit {α : Type} (k : ℕ) (seq : List α) : List (List α) :=
  splitChunks (foldSizes seq.length k) seq

/-- The fold partition of the index set of an n-row dataset into k folds. -/
def foldPlan (n k : ℕ) : List (List ℕ) := kfoldSplit k (List.range n)

/-- Modelled from the spec: the outcome of one fold — the score of the fitted model on the training
rows and on the held-out rows. -/
structure FoldResult where
  trainScore : ℚ
  validationScore : ℚ
  deriving Repr, DecidableEq

/-- Default fold result used only to totalize index lookups in statements. -/
def defaultFoldResult : FoldResult := ⟨0, 0⟩

/-- Modelled from the spec: the FoldSummary — the ordered sequence of per-fold
(trainScore, validationScore) pairs in fold index order, plus their means. -/
structure FoldSummary where
  foldResults : List FoldResult
  trainMean : ℚ
  validationMean : ℚ
  deriving Repr, DecidableEq

/-- Select the rows of a dataset at the given index list, in index-list order. -/
def rowsAt (rows : Dataset) (idx : List ℕ) : Dataset :=
  idx.map (fun j => rows.getD j defaultRow)

/-- Fit a fresh model from the factory on the training rows and score it on the training
rows and on the held-out rows. -/
def foldCore {M : Type} (cap : ModelCap M) (tr ho : Dataset) : Except String FoldResult :=
  match cap.fit cap.freshModel (tr.map Row.features) (tr.map Row.target) with
  | .error e => .error e
  | .ok m =>
    match cap.score m (tr.map Row.features) (tr.map Row.target) with
    | .error e => .error e
    | .ok ts =>
      match cap.score m (ho.map Row.features) (ho.map Row.target) with
      | .error e => .error e
      | .ok vs => .ok ⟨ts, vs⟩

/-- One fold given explicit train and held-out index lists. -/
def foldRun {M : Type} (cap : ModelCap M) (rows : Dataset) (trIdx hoIdx : List ℕ) :
    Except String FoldResult :=
  foldCore cap (rowsAt rows trIdx) (rowsAt rows hoIdx)

/-- Fold i of the k-fold plan over the given dataset: held out is fold i, the training set
is the union of all other folds in index order, and the model is the fresh unfit
freshModel instance from the factory — nothing of any other fold enters this run. -/
def foldRunAt {M : Type} (cap : ModelCap M) (rows : Dataset) (k i : ℕ) :
    Except String FoldResult :=
  foldRun cap rows (((foldPlan rows.length k).eraseIdx i).flatten)
    ((foldPlan rows.length k).getD i [])

/-- Map a fallible function over a list, aborting on the first failure. -/
def mapExcept {α β ε : Type} (f : α → Except ε β) : List α → Except ε (List β)
  | [] => .ok []
  | a :: as =>
    match f a with
    | .error e => .error e
    | .ok b =>
      match mapExcept f as with
      | .error e => .error e
      | .ok bs => .ok (b :: bs)

/-- Modelled from the spec: KFoldValidator.crossValidate with the shuffle=False convention of the notebook
convention (folds are contiguous blocks in original row order).  Validation happens before
any fold runs: an empty dataset fails with EmptyDataset, k outside [2, row count] fails
with InvalidK.  A model failure in any fold aborts the whole run as ModelFailure. -/
def crossValidate {M : Type} (cap : ModelCap M) (rows : Dataset) (k : ℕ) :
    Except EvalError FoldSummary :=
  if rows = [] then .error .emptyDataset
  else if k < 2 then .error .invalidK
  else if rows.length < k then .error .invalidK
  else
    match mapExcept (foldRunAt cap rows k) (List.range k) with
    | .error e => .error (.modelFailure e)
    | .ok frs =>
      .ok ⟨frs, mean (frs.map FoldResult.trainScore),
           mean (frs.map FoldResult.validationScore)⟩

/-- Store-threaded view of the sampling draw: pandas DataFrame.sample reads the frame and
returns a fresh object, leaving the frame untouched, so the store comes back unchanged. -/
def sampleOfSt (ss : ℕ) (wr : Bool) (s : ℕ) (st : Dataset) : (Dataset × ℕ) × Dataset :=
  (sampleOf st ss wr s, st)

/-- Store-threaded view of one repetition: the sample is drawn from the current store and
the store left by the draw is what the rest of the run sees. -/
def singleRepSt {M : Type} (cap : ModelCap M) (ss : ℕ) (wr : Bool) (qp : List ℚ) (s : ℕ)
    (st : Dataset) : Except String (EvaluationRecord × ℕ) × Dataset :=
  match recOf cap (sampleOfSt ss wr s st).1.1 qp with
  | .error e => (.error e, (sampleOfSt ss wr s st).2)
  | .ok r => (.ok (r, (sampleOfSt ss wr s st).1.2), (sampleOfSt ss wr s st).2)

/-- Store-threaded repetition loop: each repetition reads the store the previous one left. -/
def runRepsSt {M : Type} (cap : ModelCap M) (ss : ℕ) (wr : Bool) (qp : List ℚ) :
    ℕ → ℕ → Dataset → Except String (List EvaluationRecord × ℕ) × Dataset
  | 0, s, st => (.ok ([], s), st)
  | r + 1, s, st =>
    match singleRepSt cap ss wr qp s st with
    | (.error e, st₁) => (.error e, st₁)
    | (.ok p, st₁) =>
      match runRepsSt cap ss wr qp r p.2 st₁ with
      | (.error e, st₂) => (.error e, st₂)
      | (.ok q, st₂) => (.ok (p.1 :: q.1, q.2), st₂)

/-- Store-threaded evaluate: the dataset is the caller-owned store; the result is the
summary together with the store after the call. -/
def evaluateSt {M : Type} (cap : ModelCap M) (sampleSize reps : ℕ) (wr : Bool)
    (qp : List ℚ) (seed : ℕ) (st : Dataset) : Except EvalError EvaluationSummary × Dataset :=
  if st = [] then (.error .emptyDataset, st)
  else if sampleSize = 0 then (.error .invalidSampleSize, st)
  else if wr = false ∧ st.length < sampleSize then (.error .invalidSampleSize, st)
  else
    match runRepsSt cap sampleSize wr qp reps seed st with
    | (.error e, st') => (.error (.modelFailure e), st')
    | (.ok q, st') =>
      (.ok ⟨mean (q.1.map EvaluationRecord.score), variance (q.1.map EvaluationRecord.score),
            mean (q.1.map EvaluationRecord.rmse),
            mean (q.1.map EvaluationRecord.pred), variance (q.1.map EvaluationRecord.pred)⟩,
       st')

/-- Store-threaded row selection: DataFrame.iloc reads the frame without modifying it. -/
def rowsAtSt (idx : List ℕ) (st : Dataset) : Dataset × Dataset :=
  (rowsAt st idx, st)

/-- Store-threaded single fold: both row selections read the current store in sequence. -/
def foldRunSt {M : Type} (cap : ModelCap M) (trIdx hoIdx : List ℕ) (st : Dataset) :
    Except String FoldResult × Dataset :=
  (foldCore cap (rowsAtSt trIdx st).1 (rowsAtSt hoIdx (rowsAtSt trIdx st).2).1,
   (rowsAtSt hoIdx (rowsAtSt trIdx st).2).2)

/-- Store-threaded fallible map: each element reads the store the previous one left. -/
def mapExceptSt {σ α β ε : Type} (f : α → σ → Except ε β × σ) :
    List α → σ → Except ε (List β) × σ
  | [], st => (.ok [], st)
  | a :: as, st =>
    match f a st with
    | (.error e, st₁) => (.error e, st₁)
    | (.ok b, st₁) =>
      match mapExceptSt f as st₁ with
      | (.error e, st₂) => (.error e, st₂)
      | (.ok bs, st₂) => (.ok (b :: bs), st₂)

/-- Store-threaded crossValidate: the fold plan is computed once from the store, then each
fold reads the store the previous fold left. -/
def crossValidateSt {M : Type} (cap : ModelCap M) (k : ℕ) (st : Dataset) :
    Except EvalError FoldSummary × Dataset :=
  if st = [] then (.error .emptyDataset, st)
  else if k < 2 then (.error .invalidK, st)
  else if st.length < k then (.error .invalidK, st)
  else
    match mapExceptSt
        (fun i st' => foldRunSt cap (((foldPlan st.length k).eraseIdx i).flatten)
          ((foldPlan st.length k).getD i []) st')
        (List.range k) st with
    | (.error e, st') => (.error (.modelFailure e), st')
    | (.ok frs, st') =>
      (.ok ⟨frs, mean (frs.map FoldResult.trainScore),
            mean (frs.map FoldResult.validationScore)⟩, st')

/-- A concrete always-succeeding capability over the trivial model type, used to exercise
the components on concrete inputs. -/
def constCap : ModelCap Unit :=
  ⟨(), fun _ _ _ => .ok (), fun _ _ => .ok 0, fun _ _ _ => .ok 0, fun _ _ _ => .ok 0⟩

/-- A concrete capability whose fit always fails, used to exercise failure propagation. -/
def failCap : ModelCap Unit :=
  ⟨(), fun _ _ _ => .error "fit failed", fun _ _ => .ok 0, fun _ _ _ => .ok 0,
   fun _ _ _ => .ok 0⟩

/-- A concrete two-column row for concrete runs. -/
def row0 : Row := ⟨[1], 2⟩

/-- A second concrete row for concrete runs. -/
def row1 : Row := ⟨[3], 4⟩

instance instDecEqExcept {ε α : Type} [DecidableEq ε] [DecidableEq α] :
    DecidableEq (Except ε α) := fun a b =>
  match a, b with
  | .error e, .error f =>
    if h : e = f then .isTrue (h ▸ rfl) else .isFalse (fun hh => h (Except.error.inj hh))
  | .ok x, .ok y =>
    if h : x = y then .isTrue (h ▸ rfl) else .isFalse (fun hh => h (Except.ok.inj hh))
  | .error _, .ok _ => .isFalse (fun hh => Except.noConfusion hh)
  | .ok _, .error _ => .isFalse (fun hh => Except.noConfusion hh)

/-! Helper lemmas about the fold partition. -/

lemma foldSizes_length (n k : ℕ) : (foldSizes n k).length = k := by
  simp [foldSizes]

lemma range_map_add_ite_sum (k q m : ℕ) :
    ((List.range k).map (fun i => q + if i < m then 1 else 0)).sum = k * q + min m k := by
  induction k with
  | zero => simp
  | succ k ih =>
    rw [List.range_succ, List.map_append, List.sum_append, ih]
    have hs : (k + 1) * q = k * q + q := by ring
    by_cases h : k < m <;> simp [h] <;> omega

lemma foldSizes_sum (n k : ℕ) (hk : 0 < k) : (foldSizes n k).sum = n := by
  have h1 := range_map_add_ite_sum k (n / k) (n % k)
  have h2 : n % k < k := Nat.mod_lt n hk
  have h3 : k * (n / k) + n % k = n := Nat.div_add_mod n k
  rw [foldSizes, h1]
  omega

lemma splitChunks_length {α : Type} (cs : List ℕ) (xs : List α) :
    (splitChunks cs xs).length = cs.length := by
  induction cs generalizing xs with
  | nil => simp [splitChunks]
  | cons c cs ih => simp [splitChunks, ih]

lemma splitChunks_flatten {α : Type} (cs : List ℕ) (xs : List α) :
    (splitChunks cs xs).flatten = xs.take cs.sum := by
  induction cs generalizing xs with
  | nil => simp [splitChunks]
  | cons c cs ih =>
    simp only [splitChunks, List.flatten_cons, ih, List.sum_cons]
    rw [List.take_add]

lemma splitChunks_map_length {α : Type} (cs : List ℕ) (xs : List α)
    (h : cs.sum ≤ xs.length) : (splitChunks cs xs).map List.length = cs := by
  induction cs generalizing xs with
  | nil => simp [splitChunks]
  | cons c cs ih =>
    simp only [List.sum_cons] at h
    have h1 : (xs.take c).length = c := by
      rw [List.length_take]; omega
    have h2 : cs.sum ≤ (xs.drop c).length := by
      rw [List.length_drop]; omega
    simp [splitChunks, h1, ih _ h2]

lemma foldPlan_eq (n k : ℕ) : foldPlan n k = splitChunks (foldSizes n k) (List.range n) := by
  simp [foldPlan, kfoldSplit, List.length_range]

lemma foldPlan_map_length (n k : ℕ) (hk : 0 < k) :
    (foldPlan n k).map List.length = foldSizes n k := by
  rw [foldPlan_eq]
  exact splitChunks_map_length _ _ (by rw [foldSizes_sum n k hk, List.length_range])

lemma foldPlan_flatten (n k : ℕ) (hk : 0 < k) :
    (foldPlan n k).flatten = List.range n := by
  rw [foldPlan_eq, splitChunks_flatten, foldSizes_sum n k hk]
  exact List.take_of_length_le (by rw [List.length_range])

lemma getD_map_length (l : List (List ℕ)) (i : ℕ) :
    (l.map List.length).getD i 0 = (l.getD i []).length := by
  induction l generalizing i with
  | nil => simp
  | cons a l ih =>
    cases i with
    | zero => simp
    | succ j => simpa using ih j

lemma foldSizes_getD (n k i : ℕ) (h : i < k) :
    (foldSizes n k).getD i 0 = n / k + if i < n % k then 1 else 0 := by
  rw [foldSizes, List.getD_eq_getElem?_getD, List.getElem?_map, List.getElem?_range h]
  rfl

lemma range_countP_lt (k m : ℕ) :
    (List.range k).countP (fun i => decide (i < m)) = min m k := by
  induction k with
  | zero => simp
  | succ k ih =>
    rw [List.range_succ, List.countP_append, ih]
    by_cases h : k < m <;> simp [List.countP_cons, h] <;> omega

lemma ceil_div_of_mod_ne_zero (n k : ℕ) (hk : 0 < k) (hm : n % k ≠ 0) :
    (n + k - 1) / k = n / k + 1 := by
  have h3 : k * (n / k) + n % k = n := Nat.div_add_mod n k
  set q := n / k with hq
  set r := n % k with hr
  have h2 : r < k := Nat.mod_lt n hk
  have hm1 : 1 ≤ r := Nat.one_le_iff_ne_zero.mpr hm
  have hmul : k * (q + 1) = k * q + k := by ring
  have hrw : n + k - 1 = k * (q + 1) + (r - 1) := by omega
  rw [hrw, Nat.mul_add_div hk, Nat.div_eq_of_lt (show r - 1 < k by omega)]

/-- C1: for every k at least 2 and dataset of n at least k rows, the k-fold partition is a
list of k folds whose concatenation in fold order is exactly the full index sequence
0..n-1 (so the folds are disjoint contiguous blocks in original row order and cover every
index exactly once), every fold has size floor(n/k) or ceil(n/k), exactly n mod k folds
have size floor(n/k)+1, and a fold has the larger size exactly when it is one of the first
n mod k folds in index order. -/
theorem c1_fold_partition (n k : ℕ) (hk : 2 ≤ k) (_hn : k ≤ n) :
    (foldPlan n k).length = k ∧
    (foldPlan n k).flatten = List.range n ∧
    (∀ f ∈ foldPlan n k, f.length = n / k ∨ f.length = (n + k - 1) / k) ∧
    (foldPlan n k).countP (fun f => decide (f.length = n / k + 1)) = n % k ∧
    (∀ i, i < k → (((foldPlan n k).getD i []).length = n / k + 1 ↔ i < n % k)) := by
  have hk0 : 0 < k := by omega
  have hmap := foldPlan_map_length n k hk0
  have hmod : n % k < k := Nat.mod_lt n hk0
  refine ⟨?_, foldPlan_flatten n k hk0, ?_, ?_, ?_⟩
  · rw [foldPlan_eq, splitChunks_length, foldSizes_length]
  · intro f hf
    have hmem : f.length ∈ (foldPlan n k).map List.length := List.mem_map_of_mem _ hf
    rw [hmap, foldSizes] at hmem
    obtain ⟨i, hi, hlen⟩ := List.mem_map.mp hmem
    by_cases h : i < n % k
    · right
      have hm0 : n % k ≠ 0 := by omega
      rw [ceil_div_of_mod_ne_zero n k hk0 hm0, ← hlen]
      simp [h]
    · left
      rw [← hlen]
      simp [h]
  · have hcongr : (fun f : List ℕ => decide (f.length = n / k + 1)) =
        ((fun s => decide (s = n / k + 1)) ∘ List.length) := rfl
    rw [hcongr, ← List.countP_map, hmap, foldSizes, List.countP_map]
    have hfun : ((fun s => decide (s = n / k + 1)) ∘
          (fun i => n / k + if i < n % k then 1 else 0)) =
        (fun i => decide (i < n % k)) := by
      funext i
      by_cases h : i < n % k <;> simp [h]
    rw [hfun, range_countP_lt]
    omega
  · intro i hi
    rw [← getD_map_length, hmap, foldSizes_getD n k i hi]
    by_cases h : i < n % k <;> simp [h]

/-- Witness for C1 at n = 7, k = 3: the partition is [[0,1,2],[3,4],[5,6]]. -/
theorem c1_fold_partition_witness :
    2 ≤ 3 ∧ 3 ≤ 7 ∧
    ((foldPlan 7 3).length = 3 ∧
     (foldPlan 7 3).flatten = List.range 7 ∧
     (∀ f ∈ foldPlan 7 3, f.length = 7 / 3 ∨ f.length = (7 + 3 - 1) / 3) ∧
     (foldPlan 7 3).countP (fun f => decide (f.length = 7 / 3 + 1)) = 7 % 3 ∧
     (∀ i, i < 3 → (((foldPlan 7 3).getD i []).length = 7 / 3 + 1 ↔ i < 7 % 3))) :=
  ⟨by decide, by decide, c1_fold_partition 7 3 (by decide) (by decide)⟩

/-! Helper lemmas about the repetition loop and the fold loop. -/

lemma singleRep_ok_rec {M : Type} (cap : ModelCap M) (rows : Dataset) (ss : ℕ) (wr : Bool)
    (qp : List ℚ) (s : ℕ) (p : EvaluationRecord × ℕ)
    (h : singleRep cap rows ss wr qp s = .ok p) :
    recOf cap (sampleOf rows ss wr s).1 qp = .ok p.1 ∧ p.2 = seedStep rows ss wr s := by
  rw [singleRep] at h
  cases hr : recOf cap (sampleOf rows ss wr s).1 qp with
  | error e => rw [hr] at h; exact absurd h (by simp)
  | ok r =>
    rw [hr] at h
    simp only [Except.ok.injEq] at h
    subst h
    exact ⟨rfl, rfl⟩

lemma runReps_ok_spec {M : Type} (cap : ModelCap M) (rows : Dataset) (ss : ℕ) (wr : Bool)
    (qp : List ℚ) :
    ∀ (reps s0 : ℕ) (q : List EvaluationRecord × ℕ),
      runReps cap rows ss wr qp reps s0 = .ok q →
      q.1.length = reps ∧
      ∀ i, i < reps →
        singleRep cap rows ss wr qp (seedAt rows ss wr i s0) =
          .ok (q.1.getD i defaultRecord, seedAt rows ss wr (i + 1) s0) := by
  intro reps
  induction reps with
  | zero =>
    intro s0 q h
    rw [runReps] at h
    simp only [Except.ok.injEq] at h
    subst h
    exact ⟨rfl, fun i hi => absurd hi (by omega)⟩
  | succ r ih =>
    intro s0 q h
    rw [runReps] at h
    split at h
    · exact absurd h (by simp)
    · rename_i p h1
      split at h
      · exact absurd h (by simp)
      · rename_i q' h2
        simp only [Except.ok.injEq] at h
        subst h
        obtain ⟨hrec, hseed⟩ := singleRep_ok_rec cap rows ss wr qp s0 p h1
        obtain ⟨hlen, hstep⟩ := ih p.2 q' h2
        refine ⟨by simp [hlen], ?_⟩
        intro i hi
        cases i with
        | zero =>
          simp only [seedAt, List.getD_cons_zero]
          rw [h1, ← hseed]
        | succ j =>
          have hj : j < r := by omega
          have hs := hstep j hj
          rw [hseed] at hs
          simpa only [seedAt, List.getD_cons_succ] using hs

lemma runReps_one_ok {M : Type} (cap : ModelCap M) (rows : Dataset) (ss : ℕ) (wr : Bool)
    (qp : List ℚ) (s : ℕ) (q : List EvaluationRecord × ℕ)
    (h : runReps cap rows ss wr qp 1 s = .ok q) : ∃ r, q.1 = [r] := by
  obtain ⟨hlen, _⟩ := runReps_ok_spec cap rows ss wr qp 1 s q h
  cases hq : q.1 with
  | nil => rw [hq] at hlen; exact absurd hlen (by simp)
  | cons a l =>
    rw [hq] at hlen
    simp only [List.length_cons] at hlen
    have : l = [] := List.length_eq_zero.mp (by omega)
    exact ⟨a, by rw [this]⟩

lemma variance_singleton (x : ℚ) : variance [x] = 0 := by
  simp [variance, mean]

lemma mapExcept_ok {α β ε : Type} (f : α → Except ε β) (a₀ : α) (b₀ : β) :
    ∀ (l : List α) (bs : List β), mapExcept f l = .ok bs →
      bs.length = l.length ∧ ∀ i, i < l.length → f (l.getD i a₀) = .ok (bs.getD i b₀) := by
  intro l
  induction l with
  | nil =>
    intro bs h
    rw [mapExcept] at h
    simp only [Except.ok.injEq] at h
    subst h
    exact ⟨rfl, fun i hi => absurd hi (by simp)⟩
  | cons a as ih =>
    intro bs h
    rw [mapExcept] at h
    split at h
    · exact absurd h (by simp)
    · rename_i b h1
      split at h
      · exact absurd h (by simp)
      · rename_i bs' h2
        simp only [Except.ok.injEq] at h
        subst h
        obtain ⟨hlen, hstep⟩ := ih bs' h2
        refine ⟨by simp [hlen], ?_⟩
        intro i hi
        cases i with
        | zero => simpa [List.getD_cons_zero] using h1
        | succ j =>
          have hj : j < as.length := by simpa using hi
          simpa [List.getD_cons_succ] using hstep j hj

lemma getD_range (k i : ℕ) (h : i < k) : (List.range k).getD i 0 = i := by
  rw [List.getD_eq_getElem?_getD, List.getElem?_range h]
  rfl

/-! Claims about the components. -/

/-- C2: for a fixed seed, two invocations of the resampling evaluation with identical
inputs (dataset, model factory, sample size, repetitions, query point) and the same seed
produce identical EvaluationSummary values.  The embedded evaluate threads the explicit
caller-supplied seed through every sampling draw, and no other source of randomness or
ambient state exists, so the whole run is a function of its arguments. -/
theorem c2_deterministic {M : Type} (cap : ModelCap M) (rows : Dataset)
    (ss reps : ℕ) (wr : Bool) (qp : List ℚ) (s1 s2 : ℕ) (h : s1 = s2) :
    evaluate cap rows ss reps wr qp s1 = evaluate cap rows ss reps wr qp s2 := by
  rw [h]

/-- Witness for C2 at a concrete dataset, capability and seed. -/
theorem c2_deterministic_witness :
    evaluate constCap [row0] 1 2 true [0] 42 = evaluate constCap [row0] 1 2 true [0] 42 :=
  c2_deterministic constCap [row0] 1 2 true [0] 42 42 rfl

/-- C3: crossValidate with k = 1 on a nonempty dataset fails with InvalidK, evaluate with
sampleSize = 0 on a nonempty dataset fails with InvalidSampleSize, and both operations on
a dataset with zero rows fail with EmptyDataset (the empty-dataset check has priority when
both conditions hold).  Each part is proved for every model capability whatsoever —
including one whose fit always fails — so the failure is decided before any model fitting
is consulted. -/
theorem c3_input_validation :
    (∀ {M : Type} (cap : ModelCap M) (rows : Dataset), rows ≠ [] →
      crossValidate cap rows 1 = .error .invalidK) ∧
    (∀ {M : Type} (cap : ModelCap M) (rows : Dataset) (reps : ℕ) (wr : Bool)
      (qp : List ℚ) (seed : ℕ), rows ≠ [] →
      evaluate cap rows 0 reps wr qp seed = .error .invalidSampleSize) ∧
    (∀ {M : Type} (cap : ModelCap M) (k : ℕ),
      crossValidate cap ([] : Dataset) k = .error .emptyDataset) ∧
    (∀ {M : Type} (cap : ModelCap M) (ss reps : ℕ) (wr : Bool) (qp : List ℚ) (seed : ℕ),
      evaluate cap ([] : Dataset) ss reps wr qp seed = .error .emptyDataset) := by
  refine ⟨?_, ?_, ?_, ?_⟩
  · intro M cap rows hne
    rw [crossValidate, if_neg hne, if_pos (by omega)]
  · intro M cap rows reps wr qp seed hne
    rw [evaluate, if_neg hne, if_pos rfl]
  · intro M cap k
    rw [crossValidate, if_pos rfl]
  · intro M cap ss reps wr qp seed
    rw [evaluate, if_pos rfl]

/-- Witness for C3: the three failures on concrete inputs, under the always-failing
capability, so no model fitting can have occurred. -/
theorem c3_input_validation_witness :
    crossValidate failCap [row0] 1 = .error .invalidK ∧
    evaluate failCap [row0] 0 3 true [0] 0 = .error .invalidSampleSize ∧
    crossValidate failCap ([] : Dataset) 5 = .error .emptyDataset ∧
    evaluate failCap ([] : Dataset) 3 2 true [0] 0 = .error .emptyDataset :=
  ⟨c3_input_validation.1 failCap [row0] (by decide),
   c3_input_validation.2.1 failCap [row0] 3 true [0] 0 (by decide),
   c3_input_validation.2.2.1 failCap 5,
   c3_input_validation.2.2.2 failCap 3 2 true [0] 0⟩

/-- C8: whenever evaluate is called with repetitions = 1 and returns a summary, the
prediction variance and the in-sample score variance of that summary are exactly 0: a
single repetition records a single score and a single prediction, and the population
variance of a one-element sequence is 0. -/
theorem c8_single_repetition_zero_variance {M : Type} (cap : ModelCap M) (rows : Dataset)
    (ss : ℕ) (wr : Bool) (qp : List ℚ) (seed : ℕ) (s : EvaluationSummary)
    (h : evaluate cap rows ss 1 wr qp seed = .ok s) :
    s.predVariance = 0 ∧ s.scoreVariance = 0 := by
  by_cases h1 : rows = []
  · rw [evaluate, if_pos h1] at h; exact absurd h (by simp)
  by_cases h2 : ss = 0
  · rw [evaluate, if_neg h1, if_pos h2] at h; exact absurd h (by simp)
  by_cases h3 : wr = false ∧ rows.length < ss
  · rw [evaluate, if_neg h1, if_neg h2, if_pos h3] at h; exact absurd h (by simp)
  rw [evaluate, if_neg h1, if_neg h2, if_neg h3] at h
  cases hr : runReps cap rows ss wr qp 1 seed with
  | error e => rw [hr] at h; exact absurd h (by simp)
  | ok q =>
    rw [hr] at h
    simp only [Except.ok.injEq] at h
    obtain ⟨r, hq⟩ := runReps_one_ok cap rows ss wr qp seed q hr
    subst h
    rw [hq]
    exact ⟨variance_singleton _, variance_singleton _⟩

/-- Witness for C8: a concrete one-repetition run whose summary has zero variances. -/
theorem c8_single_repetition_zero_variance_witness :
    (⟨0, 0, 0, 0, 0⟩ : EvaluationSummary).predVariance = 0 ∧
    (⟨0, 0, 0, 0, 0⟩ : EvaluationSummary).scoreVariance = 0 :=
  c8_single_repetition_zero_variance constCap [row0] 1 true [0] 5 ⟨0, 0, 0, 0, 0⟩ (by
    rw [evaluate, if_neg (by simp), if_neg (by simp), if_neg (by simp)]
    have h : runReps constCap [row0] 1 true [0] 1 5 = .ok ([⟨0, 0, 0⟩], lcgNext 5) := by
      decide
    rw [h]
    simp [mean, variance])

/-- C10: a successful resampling run of the given number of repetitions records exactly one
in-sample score, one RMSE, and one query-point prediction per repetition: the record list
and its three projected sequences all have length equal to the repetition count, and the
entry at index i is exactly the record of repetition i — the single-repetition outcome at
the seed state entering repetition i. -/
theorem c10_one_record_per_repetition {M : Type} (cap : ModelCap M) (rows : Dataset)
    (ss : ℕ) (wr : Bool) (qp : List ℚ) (reps s0 : ℕ) (q : List EvaluationRecord × ℕ)
    (h : runReps cap rows ss wr qp reps s0 = .ok q) :
    q.1.length = reps ∧
    (q.1.map EvaluationRecord.score).length = reps ∧
    (q.1.map EvaluationRecord.rmse).length = reps ∧
    (q.1.map EvaluationRecord.pred).length = reps ∧
    ∀ i, i < reps →
      singleRep cap rows ss wr qp (seedAt rows ss wr i s0) =
        .ok (q.1.getD i defaultRecord, seedAt rows ss wr (i + 1) s0) := by
  obtain ⟨hlen, hstep⟩ := runReps_ok_spec cap rows ss wr qp reps s0 q h
  exact ⟨hlen, by simp [hlen], by simp [hlen], by simp [hlen], hstep⟩

/-- Witness for C10: a concrete one-repetition run, its record list of length one, and its
entry 0 equal to the repetition-0 outcome. -/
theorem c10_one_record_per_repetition_witness :
    ([⟨0, 0, 0⟩] : List EvaluationRecord).length = 1 ∧
    singleRep constCap [row0] 1 true [0] (seedAt [row0] 1 true 0 9) =
      .ok (([⟨0, 0, 0⟩] : List EvaluationRecord).getD 0 defaultRecord,
        seedAt [row0] 1 true (0 + 1) 9) :=
  ⟨(c10_one_record_per_repetition constCap [row0] 1 true [0] 1 9 ([⟨0, 0, 0⟩], lcgNext 9)
      (by decide)).1,
   (c10_one_record_per_repetition constCap [row0] 1 true [0] 1 9 ([⟨0, 0, 0⟩], lcgNext 9)
      (by decide)).2.2.2.2 0 (by decide)⟩

/-- C4: in every successful cross-validation run, the reported result of fold i coincides with
an isolated run of fold i alone (foldRunAt), which fits starting from freshModel — the
fresh, unfit model the factory produces — and sees only the training and held-out
rows of fold i.  No fitted model instance flows from one fold into another: each fold outcome is a
function of the dataset, the plan and the factory alone. -/
theorem c4_fresh_model_per_fold {M : Type} (cap : ModelCap M) (rows : Dataset) (k : ℕ)
    (s : FoldSummary) (h : crossValidate cap rows k = .ok s) :
    ∀ i, i < k → foldRunAt cap rows k i = .ok (s.foldResults.getD i defaultFoldResult) := by
  by_cases h1 : rows = []
  · rw [crossValidate, if_pos h1] at h; exact absurd h (by simp)
  by_cases h2 : k < 2
  · rw [crossValidate, if_neg h1, if_pos h2] at h; exact absurd h (by simp)
  by_cases h3 : rows.length < k
  · rw [crossValidate, if_neg h1, if_neg h2, if_pos h3] at h; exact absurd h (by simp)
  rw [crossValidate, if_neg h1, if_neg h2, if_neg h3] at h
  split at h
  · exact absurd h (by simp)
  · rename_i frs hm
    simp only [Except.ok.injEq] at h
    subst h
    obtain ⟨hlen, hstep⟩ :=
      mapExcept_ok (foldRunAt cap rows k) 0 defaultFoldResult (List.range k) frs hm
    intro i hi
    have hi' : i < (List.range k).length := by simpa using hi
    have hs := hstep i hi'
    rw [getD_range k i hi] at hs
    simpa using hs

/-- Witness for C4: a concrete successful two-fold run whose fold-0 result equals the
isolated fold-0 run. -/
theorem c4_fresh_model_per_fold_witness :
    foldRunAt constCap [row0, row1] 2 0 =
      .ok ((⟨[⟨0, 0⟩, ⟨0, 0⟩], 0, 0⟩ : FoldSummary).foldResults.getD 0 defaultFoldResult) :=
  c4_fresh_model_per_fold constCap [row0, row1] 2 ⟨[⟨0, 0⟩, ⟨0, 0⟩], 0, 0⟩ (by
    have h : mapExcept (foldRunAt constCap [row0, row1] 2) (List.range 2) =
        .ok [⟨0, 0⟩, ⟨0, 0⟩] := by decide
    rw [crossValidate, if_neg (by simp), if_neg (by simp), if_neg (by simp), h]
    simp [mean]) 0 (by decide)

lemma recOf_ok_predict {M : Type} (cap : ModelCap M) (sample : Dataset) (qp : List ℚ)
    (r : EvaluationRecord) (h : recOf cap sample qp = .ok r) :
    ∃ m, cap.predict m qp = .ok r.pred := by
  rw [recOf] at h
  split at h
  · exact absurd h (by simp)
  · rename_i m hfit
    split at h
    · exact absurd h (by simp)
    · rename_i sc hsc
      split at h
      · exact absurd h (by simp)
      · rename_i rm hrm
        split at h
        · exact absurd h (by simp)
        · rename_i p hp
          simp only [Except.ok.injEq] at h
          subst h
          exact ⟨m, hp⟩

/-- C5 counterexample: a successful resampling evaluation on the one-row dataset [row0]
whose query point is exactly the feature vector of that row — as in the notebook, where the
query point is itself sampled from the dataset.  The bootstrap training sample of repetition 0
then contains the query point, so the query point is not disjoint from the rows used to
train: the claimed disjointness fails. -/
theorem c5_counterexample :
    evaluate constCap [row0] 1 2 true row0.features 0 = .ok ⟨0, 0, 0, 0, 0⟩ ∧
    row0.features ∈
      ((sampleOf [row0] 1 true (seedAt [row0] 1 true 0 0)).1.map Row.features) := by
  constructor
  · rw [evaluate, if_neg (by simp), if_neg (by simp), if_neg (by simp)]
    have h : runReps constCap [row0] 1 true row0.features 2 0 =
        .ok ([⟨0, 0, 0⟩, ⟨0, 0, 0⟩], lcgNext (lcgNext 0)) := by decide
    rw [h]
    simp [mean, variance]
  · decide

/-- C5 amended: the query point is one single, caller-fixed feature row, and every
recorded prediction of every repetition is the prediction of the fitted model at that same query
point; disjointness from the training rows is not guaranteed — the training samples are
drawn from the full dataset and may contain the query point. -/
theorem c5_fixed_query_point {M : Type} (cap : ModelCap M) (rows : Dataset)
    (ss : ℕ) (wr : Bool) (qp : List ℚ) (reps s0 : ℕ) (q : List EvaluationRecord × ℕ)
    (h : runReps cap rows ss wr qp reps s0 = .ok q) :
    ∀ i, i < reps → ∃ m, cap.predict m qp = .ok ((q.1.getD i defaultRecord).pred) := by
  obtain ⟨hlen, hstep⟩ := runReps_ok_spec cap rows ss wr qp reps s0 q h
  intro i hi
  obtain ⟨hrec, _⟩ := singleRep_ok_rec cap rows ss wr qp _ _ (hstep i hi)
  exact recOf_ok_predict cap _ qp _ hrec

/-- Witness for the amended C5 at a concrete run. -/
theorem c5_fixed_query_point_witness :
    ∃ m : Unit, constCap.predict m [9] =
      .ok ((([⟨0, 0, 0⟩] : List EvaluationRecord).getD 0 defaultRecord).pred) :=
  c5_fixed_query_point constCap [row0] 1 true [9] 1 3 ([⟨0, 0, 0⟩], lcgNext 3)
    (by decide) 0 (by decide)

/-! Helper lemmas for the full-sample case of the selection draw. -/

lemma selectSample_all (rows : Dataset) :
    ∀ (need s : ℕ), rows.length ≤ need → (selectSample rows need s).1 = rows := by
  induction rows with
  | nil => intro need s _; rw [selectSample]
  | cons r rest ih =>
    intro need s h
    cases need with
    | zero => simp at h
    | succ n =>
      have hlen : rest.length ≤ n := by simpa using h
      have hc : lcgNext s % (rest.length + 1) < n + 1 := by
        have := Nat.mod_lt (lcgNext s) (show 0 < rest.length + 1 by omega)
        omega
      rw [selectSample, if_pos hc]
      simp [ih n (lcgNext s) hlen]

lemma sampleOf_full (rows : Dataset) (s : ℕ) :
    (sampleOf rows rows.length false s).1 = rows := by
  rw [sampleOf]
  simp only [Bool.false_eq_true, if_false]
  exact selectSample_all rows rows.length s le_rfl

lemma singleRep_full {M : Type} (cap : ModelCap M) (rows : Dataset) (qp : List ℚ) (s : ℕ)
    (p : EvaluationRecord × ℕ) (h : singleRep cap rows rows.length false qp s = .ok p) :
    recOf cap rows qp = .ok p.1 := by
  obtain ⟨hrec, _⟩ := singleRep_ok_rec cap rows rows.length false qp s p h
  rwa [sampleOf_full rows s] at hrec

lemma runReps_full_rec {M : Type} (cap : ModelCap M) (rows : Dataset) (qp : List ℚ) :
    ∀ (reps s0 : ℕ) (q : List EvaluationRecord × ℕ),
      runReps cap rows rows.length false qp reps s0 = .ok q →
      ∀ e ∈ q.1, recOf cap rows qp = .ok e := by
  intro reps
  induction reps with
  | zero =>
    intro s0 q h
    rw [runReps] at h
    simp only [Except.ok.injEq] at h
    subst h
    simp
  | succ r ih =>
    intro s0 q h
    rw [runReps] at h
    split at h
    · exact absurd h (by simp)
    · rename_i p h1
      split at h
      · exact absurd h (by simp)
      · rename_i q' h2
        simp only [Except.ok.injEq] at h
        subst h
        intro e he
        simp only [List.mem_cons] at he
        rcases he with he | he
        · subst he; exact singleRep_full cap rows qp s0 p h1
        · exact ih p.2 q' h2 e he

/-- C6: in every successful run of the repetition loop with sampleSize equal to the row
count and withReplacement = false, the selection draw keeps every row, so the training
sample of every repetition is the entire dataset in original row order; consequently the
recorded in-sample scores agree across all repetitions (the embedded model fit is a pure
function of the training sample, hence deterministic). -/
theorem c6_full_sample {M : Type} (cap : ModelCap M) (rows : Dataset) (qp : List ℚ)
    (reps s0 : ℕ) (q : List EvaluationRecord × ℕ)
    (h : runReps cap rows rows.length false qp reps s0 = .ok q) :
    (∀ s, (sampleOf rows rows.length false s).1 = rows) ∧
    (∀ i j, i < q.1.length → j < q.1.length →
      (q.1.getD i defaultRecord).score = (q.1.getD j defaultRecord).score) := by
  refine ⟨fun s => sampleOf_full rows s, ?_⟩
  intro i j hi hj
  have hmem := runReps_full_rec cap rows qp reps s0 q h
  have hgi : q.1.getD i defaultRecord ∈ q.1 := by
    rw [List.getD_eq_getElem _ _ hi]; exact List.getElem_mem hi
  have hgj : q.1.getD j defaultRecord ∈ q.1 := by
    rw [List.getD_eq_getElem _ _ hj]; exact List.getElem_mem hj
  have h1 := hmem (q.1.getD i defaultRecord) hgi
  have h2 := hmem (q.1.getD j defaultRecord) hgj
  rw [h1] at h2
  simp only [Except.ok.injEq] at h2
  rw [h2]

/-- Witness for C6: a concrete two-repetition full-sample run without replacement, whose
sample is the whole dataset and whose two recorded scores agree. -/
theorem c6_full_sample_witness :
    (sampleOf [row0] ([row0] : Dataset).length false 0).1 = [row0] ∧
    (([⟨0, 0, 0⟩, ⟨0, 0, 0⟩] : List EvaluationRecord).getD 0 defaultRecord).score =
      (([⟨0, 0, 0⟩, ⟨0, 0, 0⟩] : List EvaluationRecord).getD 1 defaultRecord).score :=
  ⟨(c6_full_sample constCap [row0] [0] 2 5
      ([⟨0, 0, 0⟩, ⟨0, 0, 0⟩], lcgNext (lcgNext 5)) (by decide)).1 0,
   (c6_full_sample constCap [row0] [0] 2 5
      ([⟨0, 0, 0⟩, ⟨0, 0, 0⟩], lcgNext (lcgNext 5)) (by decide)).2 0 1 (by decide)
     (by decide)⟩

/-- C7: failures of the external model capability abort the whole call without retry and
without partial results.  Part one: once validation passes, a failing repetition loop makes
evaluate return exactly the single wrapped ModelFailure.  Part two: likewise a failing fold
loop makes crossValidate return the single wrapped ModelFailure.  Part three: a successful
crossValidate returns a complete summary — one fold result per fold, k in total.  Part
four: the loop never retries — a failure of the very next repetition is the immediate
result of the whole remaining loop. -/
theorem c7_model_failure_aborts :
    (∀ {M : Type} (cap : ModelCap M) (rows : Dataset) (ss reps : ℕ) (wr : Bool)
        (qp : List ℚ) (seed : ℕ) (e : String),
      rows ≠ [] → ss ≠ 0 → ¬(wr = false ∧ rows.length < ss) →
      runReps cap rows ss wr qp reps seed = .error e →
      evaluate cap rows ss reps wr qp seed = .error (.modelFailure e)) ∧
    (∀ {M : Type} (cap : ModelCap M) (rows : Dataset) (k : ℕ) (e : String),
      rows ≠ [] → ¬(k < 2) → ¬(rows.length < k) →
      mapExcept (foldRunAt cap rows k) (List.range k) = .error e →
      crossValidate cap rows k = .error (.modelFailure e)) ∧
    (∀ {M : Type} (cap : ModelCap M) (rows : Dataset) (k : ℕ) (s : FoldSummary),
      crossValidate cap rows k = .ok s → s.foldResults.length = k) ∧
    (∀ {M : Type} (cap : ModelCap M) (rows : Dataset) (ss : ℕ) (wr : Bool) (qp : List ℚ)
        (s : ℕ) (e : String) (r : ℕ),
      singleRep cap rows ss wr qp s = .error e →
      runReps cap rows ss wr qp (r + 1) s = .error e) := by
  refine ⟨?_, ?_, ?_, ?_⟩
  · intro M cap rows ss reps wr qp seed e h1 h2 h3 h4
    rw [evaluate, if_neg h1, if_neg h2, if_neg h3, h4]
  · intro M cap rows k e h1 h2 h3 h4
    rw [crossValidate, if_neg h1, if_neg h2, if_neg h3, h4]
  · intro M cap rows k s h
    by_cases h1 : rows = []
    · rw [crossValidate, if_pos h1] at h; exact absurd h (by simp)
    by_cases h2 : k < 2
    · rw [crossValidate, if_neg h1, if_pos h2] at h; exact absurd h (by simp)
    by_cases h3 : rows.length < k
    · rw [crossValidate, if_neg h1, if_neg h2, if_pos h3] at h; exact absurd h (by simp)
    rw [crossValidate, if_neg h1, if_neg h2, if_neg h3] at h
    split at h
    · exact absurd h (by simp)
    · rename_i frs hm
      simp only [Except.ok.injEq] at h
      subst h
      obtain ⟨hlen, _⟩ :=
        mapExcept_ok (foldRunAt cap rows k) 0 defaultFoldResult (List.range k) frs hm
      simpa using hlen
  · intro M cap rows ss wr qp s e r h
    rw [runReps, h]

/-- Witness for C7: concrete failing runs under the always-failing capability, and a
concrete complete two-fold summary under the always-succeeding one. -/
theorem c7_model_failure_aborts_witness :
    evaluate failCap [row0] 1 1 true [0] 7 = .error (.modelFailure "fit failed") ∧
    crossValidate failCap [row0, row1] 2 = .error (.modelFailure "fit failed") ∧
    (⟨[⟨0, 0⟩, ⟨0, 0⟩], 0, 0⟩ : FoldSummary).foldResults.length = 2 ∧
    runReps failCap [row0] 1 true [0] 1 9 = .error "fit failed" :=
  ⟨c7_model_failure_aborts.1 failCap [row0] 1 1 true [0] 7 "fit failed" (by decide)
     (by decide) (by decide) (by decide),
   c7_model_failure_aborts.2.1 failCap [row0, row1] 2 "fit failed" (by decide) (by decide)
     (by decide) (by decide),
   c7_model_failure_aborts.2.2.1 constCap [row0, row1] 2 ⟨[⟨0, 0⟩, ⟨0, 0⟩], 0, 0⟩ (by
     have h : mapExcept (foldRunAt constCap [row0, row1] 2) (List.range 2) =
         .ok [⟨0, 0⟩, ⟨0, 0⟩] := by decide
     rw [crossValidate, if_neg (by simp), if_neg (by simp), if_neg (by simp), h]
     simp [mean]),
   c7_model_failure_aborts.2.2.2 failCap [row0] 1 true [0] 9 "fit failed" 0 (by decide)⟩

/-! Helper lemmas relating the store-threaded and the pure runs. -/

lemma singleRepSt_eq {M : Type} (cap : ModelCap M) (ss : ℕ) (wr : Bool) (qp : List ℚ)
    (s : ℕ) (st : Dataset) :
    singleRepSt cap ss wr qp s st = (singleRep cap st ss wr qp s, st) := by
  cases h : recOf cap (sampleOf st ss wr s).1 qp with
  | error e => simp [singleRepSt, singleRep, sampleOfSt, h]
  | ok r => simp [singleRepSt, singleRep, sampleOfSt, h]

lemma runRepsSt_eq {M : Type} (cap : ModelCap M) (ss : ℕ) (wr : Bool) (qp : List ℚ) :
    ∀ (r s : ℕ) (st : Dataset),
      runRepsSt cap ss wr qp r s st = (runReps cap st ss wr qp r s, st) := by
  intro r
  induction r with
  | zero => intro s st; rw [runRepsSt, runReps]
  | succ n ih =>
    intro s st
    cases h : singleRep cap st ss wr qp s with
    | error e => simp [runRepsSt, runReps, singleRepSt_eq, h]
    | ok p =>
      cases h2 : runReps cap st ss wr qp n p.2 with
      | error e => simp [runRepsSt, runReps, singleRepSt_eq, h, ih p.2 st, h2]
      | ok q => simp [runRepsSt, runReps, singleRepSt_eq, h, ih p.2 st, h2]

lemma foldRunSt_eq {M : Type} (cap : ModelCap M) (trIdx hoIdx : List ℕ) (st : Dataset) :
    foldRunSt cap trIdx hoIdx st = (foldRun cap st trIdx hoIdx, st) := rfl

lemma mapExceptSt_pure {σ α β ε : Type} (f : α → σ → Except ε β × σ)
    (g : α → σ → Except ε β) (hf : ∀ a st, f a st = (g a st, st)) :
    ∀ (l : List α) (st : σ), mapExceptSt f l st = (mapExcept (fun a => g a st) l, st) := by
  intro l
  induction l with
  | nil => intro st; rw [mapExceptSt, mapExcept]
  | cons a as ih =>
    intro st
    cases h : g a st with
    | error e => simp [mapExceptSt, mapExcept, hf a st, h]
    | ok b =>
      cases h2 : mapExcept (fun x => g x st) as with
      | error e => simp [mapExceptSt, mapExcept, hf a st, h, ih st, h2]
      | ok bs => simp [mapExceptSt, mapExcept, hf a st, h, ih st, h2]

/-- C9: both operations are free of side effects on the dataset: threading the caller-owned
dataset store through every read of the computation — each sampling draw and each row
selection hands the store on to the next step — the store that comes out is exactly the
store that went in (same rows, same row contents, same row count, same columns), and the
returned value is exactly the pure function of the inputs. -/
theorem c9_no_mutation {M : Type} (cap : ModelCap M) (ss reps : ℕ) (wr : Bool)
    (qp : List ℚ) (seed : ℕ) (k : ℕ) (st : Dataset) :
    evaluateSt cap ss reps wr qp seed st = (evaluate cap st ss reps wr qp seed, st) ∧
    crossValidateSt cap k st = (crossValidate cap st k, st) := by
  constructor
  · rw [evaluateSt, evaluate]
    by_cases h1 : st = []
    · rw [if_pos h1, if_pos h1]
    rw [if_neg h1, if_neg h1]
    by_cases h2 : ss = 0
    · rw [if_pos h2, if_pos h2]
    rw [if_neg h2, if_neg h2]
    by_cases h3 : wr = false ∧ st.length < ss
    · rw [if_pos h3, if_pos h3]
    rw [if_neg h3, if_neg h3, runRepsSt_eq]
    cases h : runReps cap st ss wr qp reps seed with
    | error e => rfl
    | ok q => rfl
  · rw [crossValidateSt, crossValidate]
    by_cases h1 : st = []
    · rw [if_pos h1, if_pos h1]
    rw [if_neg h1, if_neg h1]
    by_cases h2 : k < 2
    · rw [if_pos h2, if_pos h2]
    rw [if_neg h2, if_neg h2]
    by_cases h3 : st.length < k
    · rw [if_pos h3, if_pos h3]
    rw [if_neg h3, if_neg h3]
    rw [mapExceptSt_pure
      (fun i st' => foldRunSt cap (((foldPlan st.length k).eraseIdx i).flatten)
        ((foldPlan st.length k).getD i []) st')
      (fun i st' => foldRun cap st' (((foldPlan st.length k).eraseIdx i).flatten)
        ((foldPlan st.length k).getD i []))
      (fun i st' => foldRunSt_eq cap _ _ st') (List.range k) st]
    have hfun : (fun i => foldRun cap st (((foldPlan st.length k).eraseIdx i).flatten)
        ((foldPlan st.length k).getD i [])) = foldRunAt cap st k := rfl
    rw [hfun]
    cases h : mapExcept (foldRunAt cap st k) (List.range k) with
    | error e => rfl
    | ok frs => rfl

end ModelValidation
